import Mathlib

/-!
Shallow embedding of the luck-adjusted fantasy-league analytics engine
(`league.py`): opponent pairing and natural wins (`Performance`),
per-week expected wins and luck index (`WeekResults.df`), season
aggregation and power rankings (`League.power_rankings`).
Points are modelled as rationals; fallible lookups return `Option`.
-/

namespace Sleeper

/-- A weekly matchup record for one roster (class `Performance`):
`matchup_id`, `roster_id` and the scored `points`. -/
structure Perf where
  matchup_id : Int
  roster_id : Int
  points : ℚ
deriving DecidableEq, Repr

/-- Property `Performance.opponent_matchup_data`: the first performance in
the week's reference data sharing this performance's `matchup_id` with a
different `roster_id`.  The Python `[...][0]` raises `IndexError` when the
filtered list is empty, modelled by `Option`. -/
def opponent_matchup_data (p : Perf) (reference : List Perf) : Option Perf :=
  (reference.filter (fun q => q.matchup_id == p.matchup_id && q.roster_id != p.roster_id)).head?

/-- Property `Performance.opponent_roster_id`. -/
def opponent_roster_id (p : Perf) (reference : List Perf) : Option Int :=
  (opponent_matchup_data p reference).map Perf.roster_id

/-- Property `Performance.opponent_points`. -/
def opponent_points (p : Perf) (reference : List Perf) : Option ℚ :=
  (opponent_matchup_data p reference).map Perf.points

/-- Property `Performance.natural_wins`: 1 when this performance outscored
its opponent, 0 when it was outscored, 0.5 on a tie. -/
def natural_wins (p : Perf) (reference : List Perf) : Option ℚ :=
  (opponent_points p reference).map (fun op =>
    if p.points > op then 1 else if p.points < op then 0 else 1/2)

/-- Polars `rank(method='min')` ascending over the points column:
a score's rank is one more than the number of strictly smaller scores. -/
def rankMin (perfs : List Perf) (p : Perf) : Nat :=
  1 + (perfs.filter (fun q => q.points < p.points)).length

/-- The expected-wins column of `WeekResults.df`:
`(rank − 1) / (num_teams − 1)` with minimum-rank ties. -/
def expectedWin (perfs : List Perf) (p : Perf) : ℚ :=
  ((rankMin perfs p : ℚ) - 1) / ((perfs.length : ℚ) - 1)

/-- One row of `WeekResults.df`. -/
structure Row where
  week : Int
  roster_id : Int
  points : ℚ
  natural_win : ℚ
  expected_win : ℚ
  luck_index : ℚ
deriving DecidableEq, Repr

/-- Property `WeekResults.df`: one row per performance with the week, roster,
points, natural wins, expected wins and luck index columns.  Computing
any row's natural wins raises (no opponent) exactly when some
performance has no opponent, in which case no frame is produced. -/
def weekDf (week : Int) (perfs : List Perf) : Option (List Row) :=
  if perfs.all (fun p => (natural_wins p perfs).isSome) then
    some (perfs.map (fun p =>
      let nw := (natural_wins p perfs).getD 0
      let ew := expectedWin perfs p
      { week := week, roster_id := p.roster_id, points := p.points,
        natural_win := nw, expected_win := ew, luck_index := nw - ew }))
  else none

/-- Well-formed weekly pairing: every performance's matchup group has
exactly two members, and exactly one of them is an opponent (shares the
`matchup_id`, different `roster_id`). -/
def Paired (perfs : List Perf) : Prop :=
  ∀ p ∈ perfs,
    (perfs.filter (fun q => q.matchup_id == p.matchup_id)).length = 2 ∧
    (perfs.filter (fun q => q.matchup_id == p.matchup_id && q.roster_id != p.roster_id)).length = 1

instance (perfs : List Perf) : Decidable (Paired perfs) := by
  unfold Paired; infer_instance

/-- One row of the aggregate produced by the group-by in
`League.power_rankings`. -/
structure AggRow where
  roster_id : Int
  natural_wins : ℚ
  expected_wins : ℚ
  luckstat : ℚ
  cumulative_luck : List ℚ
deriving DecidableEq, Repr

/-- Polars `cum_sum`: the list of running totals, via an accumulator. -/
def cumSumAux (acc : ℚ) : List ℚ → List ℚ
  | [] => []
  | x :: xs => (acc + x) :: cumSumAux (acc + x) xs

/-- Polars `cum_sum` of a column. -/
def cumSum (l : List ℚ) : List ℚ := cumSumAux 0 l

/-- Property `League.historical_results`: the concatenation of the weekly
frames in ascending week order. -/
def historicalResults (weekly : List (List Row)) : List Row := weekly.flatten

/-- Rows of one roster's group in the `group_by('roster_id')`; polars
aggregation keeps rows of a group in their frame order. -/
def rosterRows (rid : Int) (hist : List Row) : List Row :=
  hist.filter (fun r => r.roster_id == rid)

/-- One group's output of the `group_by('roster_id').agg([...])` in
`League.power_rankings`: sums of natural, expected wins, the luck sum
(`luckstat`) and the running luck totals (`cumulative_luck`). -/
def aggRow (rid : Int) (hist : List Row) : AggRow :=
  { roster_id := rid,
    natural_wins := ((rosterRows rid hist).map Row.natural_win).sum,
    expected_wins := ((rosterRows rid hist).map Row.expected_win).sum,
    luckstat := ((rosterRows rid hist).map Row.luck_index).sum,
    cumulative_luck := cumSum ((rosterRows rid hist).map Row.luck_index) }

/-- One row of `League.roster_map`: roster id, team name and season wins. -/
structure MetaRow where
  roster_id : Int
  team_name : String
  wins : Int
deriving DecidableEq, Repr

/-- One row of the final power-ranking table: the joined columns with
`roster_id` dropped. -/
structure RankRow where
  team_name : String
  wins : Int
  natural_wins : ℚ
  expected_wins : ℚ
  luckstat : ℚ
  cumulative_luck : List ℚ
deriving DecidableEq, Repr

/-- Projection of one joined row after `.drop('roster_id')`. -/
def combineRows (a : AggRow) (m : MetaRow) : RankRow :=
  { team_name := m.team_name, wins := m.wins, natural_wins := a.natural_wins,
    expected_wins := a.expected_wins, luckstat := a.luckstat,
    cumulative_luck := a.cumulative_luck }

/-- Inner join on `roster_id` (`agg_df.join(self.roster_map, on='roster_id',
how='inner')`) followed by the `roster_id` drop: only matching pairs of
rows survive. -/
def innerJoin (agg : List AggRow) (meta : List MetaRow) : List RankRow :=
  agg.flatMap (fun a =>
    (meta.filter (fun m => m.roster_id == a.roster_id)).map (combineRows a))

/-- Comparison used by `sort('expected_wins', descending=True)`. -/
def expDescLe (x y : RankRow) : Bool := decide (y.expected_wins ≤ x.expected_wins)

/-- Property `League.power_rankings` after the aggregation: join with the
roster metadata, drop `roster_id`, sort by `expected_wins` descending. -/
def powerRankings (agg : List AggRow) (meta : List MetaRow) : List RankRow :=
  (innerJoin agg meta).mergeSort expDescLe

/-- Concrete four-team week: rosters 1 vs 2 (100 vs 90) and 3 vs 4 (90 vs 80). -/
def exWeek4 : List Perf :=
  [⟨1, 1, 100⟩, ⟨1, 2, 90⟩, ⟨2, 3, 90⟩, ⟨2, 4, 80⟩]

/-- Frame computed by `weekDf` on `exWeek4`. -/
def exRows4 : List Row :=
  [⟨1, 1, 100, 1, 1, 0⟩, ⟨1, 2, 90, 0, 1/3, -(1/3)⟩,
   ⟨1, 3, 90, 1, 1/3, 2/3⟩, ⟨1, 4, 80, 0, 0, 0⟩]

/-- Concrete week in which matchup 1 has three performances. -/
def exTriple : List Perf :=
  [⟨1, 1, 10⟩, ⟨1, 2, 8⟩, ⟨1, 3, 6⟩]

/-- Frame computed by `weekDf` on `exTriple`. -/
def exTripleRows : List Row :=
  [⟨1, 1, 10, 1, 1, 0⟩, ⟨1, 2, 8, 0, 1/2, -(1/2)⟩, ⟨1, 3, 6, 0, 0, 0⟩]

/-- Two concrete weekly frames for two rosters, in ascending week order. -/
def exWeekly : List (List Row) :=
  [[⟨1, 1, 100, 1, 1, 0⟩, ⟨1, 2, 90, 0, 0, 0⟩],
   [⟨2, 1, 80, 0, 0, 0⟩, ⟨2, 2, 95, 1, 1, 0⟩]]

lemma pair_cases {α : Type} {l : List α} {a b : α} (hl : l.length = 2)
    (ha : a ∈ l) (hb : b ∈ l) (hab : a ≠ b) : l = [a, b] ∨ l = [b, a] := by
  match l, hl with
  | [x, y], _ =>
    simp only [List.mem_cons, List.not_mem_nil, or_false] at ha hb
    rcases ha with rfl | rfl <;> rcases hb with rfl | rfl <;> simp_all

lemma opponent_eq_of_pair {perfs : List Perf} {a b : Perf}
    (ha : a ∈ perfs) (hb : b ∈ perfs) (hmid : b.matchup_id = a.matchup_id)
    (hrid : b.roster_id ≠ a.roster_id)
    (hlen : (perfs.filter (fun q => q.matchup_id == a.matchup_id)).length = 2) :
    opponent_matchup_data a perfs = some b := by
  have hcomm : perfs.filter
        (fun q => q.matchup_id == a.matchup_id && q.roster_id != a.roster_id)
      = (perfs.filter (fun q => q.matchup_id == a.matchup_id)).filter
        (fun q => q.roster_id != a.roster_id) := by
    rw [List.filter_filter]
    exact List.filter_congr (fun x _ => by rw [Bool.and_comm])
  have hag : a ∈ perfs.filter (fun q => q.matchup_id == a.matchup_id) :=
    List.mem_filter.mpr ⟨ha, by simp⟩
  have hbg : b ∈ perfs.filter (fun q => q.matchup_id == a.matchup_id) :=
    List.mem_filter.mpr ⟨hb, by simp [hmid]⟩
  have hba : b ≠ a := fun h => hrid (by rw [h])
  unfold opponent_matchup_data
  rw [hcomm]
  rcases pair_cases hlen hag hbg hba.symm with h | h <;> rw [h] <;>
    simp [List.filter_cons, hrid]

lemma natural_wins_add_one {perfs : List Perf} {a b : Perf}
    (hab : opponent_matchup_data a perfs = some b)
    (hba : opponent_matchup_data b perfs = some a) :
    ∃ x y, natural_wins a perfs = some x ∧ natural_wins b perfs = some y ∧
      x + y = 1 := by
  unfold natural_wins opponent_points
  rw [hab, hba]
  refine ⟨_, _, rfl, rfl, ?_⟩
  rcases lt_trichotomy a.points b.points with h | h | h
  · simp only [gt_iff_lt, if_neg (not_lt.mpr h.le), if_pos h]
    norm_num
  · simp only [gt_iff_lt, if_neg (not_lt.mpr h.le), if_neg (not_lt.mpr h.ge)]
    norm_num
  · simp only [gt_iff_lt, if_pos h, if_neg (not_lt.mpr h.le)]
    norm_num

/-- C2: a performance whose matchup has exactly one opponent performance gets
natural wins 1, 0 or 0.5 according to whether its points exceed, trail or
equal the opponent's points; the computation is a pure lookup with no other
effect. -/
theorem natural_wins_of_unique_opponent (perfs : List Perf) (p q : Perf)
    (h : perfs.filter
        (fun r => r.matchup_id == p.matchup_id && r.roster_id != p.roster_id) = [q]) :
    ∃ v, natural_wins p perfs = some v ∧
      (q.points < p.points → v = 1) ∧ (p.points < q.points → v = 0) ∧
      (p.points = q.points → v = 1/2) := by
  have hop : opponent_matchup_data p perfs = some q := by
    unfold opponent_matchup_data
    rw [h]
    rfl
  unfold natural_wins opponent_points
  rw [hop]
  refine ⟨_, rfl, ?_, ?_, ?_⟩
  · intro hlt
    simp only [gt_iff_lt, if_pos hlt]
  · intro hlt
    simp only [gt_iff_lt, if_neg (not_lt.mpr hlt.le), if_pos hlt]
  · intro heq
    simp only [gt_iff_lt, if_neg (not_lt.mpr heq.ge), if_neg (not_lt.mpr heq.le)]

/-- Witness for C2 on the concrete four-team week. -/
theorem natural_wins_of_unique_opponent_witness :
    ∃ v, natural_wins ⟨1, 1, 100⟩ exWeek4 = some v ∧
      ((90 : ℚ) < 100 → v = 1) ∧ ((100 : ℚ) < 90 → v = 0) ∧
      ((100 : ℚ) = 90 → v = 1/2) :=
  natural_wins_of_unique_opponent exWeek4 ⟨1, 1, 100⟩ ⟨1, 2, 90⟩ (by decide)

/-- C3: when a matchup consists of exactly two performances of distinct
rosters sharing a matchup id, their natural-win values are both defined and
sum to exactly 1. -/
theorem natural_wins_pair_sum (perfs : List Perf) (a b : Perf)
    (ha : a ∈ perfs) (hb : b ∈ perfs) (hmid : a.matchup_id = b.matchup_id)
    (hrid : a.roster_id ≠ b.roster_id)
    (hlen : (perfs.filter (fun q => q.matchup_id == a.matchup_id)).length = 2) :
    ∃ x y, natural_wins a perfs = some x ∧ natural_wins b perfs = some y ∧
      x + y = 1 := by
  have hab : opponent_matchup_data a perfs = some b :=
    opponent_eq_of_pair ha hb hmid.symm (Ne.symm hrid) hlen
  have hlen' : (perfs.filter (fun q => q.matchup_id == b.matchup_id)).length = 2 := by
    rw [List.filter_congr (fun x _ => by rw [hmid])] at hlen
    exact hlen
  have hba : opponent_matchup_data b perfs = some a :=
    opponent_eq_of_pair hb ha hmid hrid hlen'
  exact natural_wins_add_one hab hba

/-- Witness for C3 on the concrete four-team week. -/
theorem natural_wins_pair_sum_witness :
    ∃ x y, natural_wins ⟨1, 1, 100⟩ exWeek4 = some x ∧
      natural_wins ⟨1, 2, 90⟩ exWeek4 = some y ∧ x + y = 1 :=
  natural_wins_pair_sum exWeek4 ⟨1, 1, 100⟩ ⟨1, 2, 90⟩ (by decide) (by decide)
    (by decide) (by decide) (by decide)

/-- C10: in a well-paired week (each matchup id shared by exactly two
performances of distinct rosters) the opponent relation is an involution:
the opponent of a performance's opponent is that performance, so its
opponent's opponent roster id is its own roster id. -/
theorem opponent_involution (perfs : List Perf) (hp : Paired perfs) :
    ∀ p ∈ perfs, ∃ q, opponent_matchup_data p perfs = some q ∧
      opponent_matchup_data q perfs = some p ∧
      opponent_roster_id q perfs = some p.roster_id := by
  intro p hpm
  obtain ⟨h2, h1⟩ := hp p hpm
  obtain ⟨q, hq⟩ := List.length_eq_one.mp h1
  have hqm : q ∈ perfs ∧
      (q.matchup_id == p.matchup_id && q.roster_id != p.roster_id) = true := by
    have : q ∈ perfs.filter
        (fun r => r.matchup_id == p.matchup_id && r.roster_id != p.roster_id) := by
      rw [hq]
      exact List.mem_singleton_self q
    exact ⟨(List.mem_filter.mp this).1, (List.mem_filter.mp this).2⟩
  have hmid : q.matchup_id = p.matchup_id := by
    have := hqm.2
    simp only [Bool.and_eq_true, beq_iff_eq, bne_iff_ne] at this
    exact this.1
  have hrid : q.roster_id ≠ p.roster_id := by
    have := hqm.2
    simp only [Bool.and_eq_true, beq_iff_eq, bne_iff_ne] at this
    exact this.2
  have hpq : opponent_matchup_data p perfs = some q := by
    unfold opponent_matchup_data
    rw [hq]
    rfl
  have hlen' : (perfs.filter (fun r => r.matchup_id == q.matchup_id)).length = 2 := by
    rw [List.filter_congr (fun x _ => by rw [hmid])]
    exact h2
  have hqp : opponent_matchup_data q perfs = some p :=
    opponent_eq_of_pair hqm.1 hpm hmid.symm (Ne.symm hrid) hlen'
  refine ⟨q, hpq, hqp, ?_⟩
  unfold opponent_roster_id
  rw [hqp]
  rfl

/-- Witness for C10 on the concrete four-team week. -/
theorem opponent_involution_witness :
    ∃ q, opponent_matchup_data ⟨1, 1, 100⟩ exWeek4 = some q ∧
      opponent_matchup_data q exWeek4 = some ⟨1, 1, 100⟩ ∧
      opponent_roster_id q exWeek4 = some 1 :=
  opponent_involution exWeek4 (by decide) ⟨1, 1, 100⟩ (by decide)

lemma length_filter_add {α : Type} (l : List α) (P : α → Bool) :
    (l.filter P).length + (l.filter (fun x => !P x)).length = l.length := by
  induction l with
  | nil => rfl
  | cons a t ih => cases h : P a <;> simp [List.filter_cons, h] <;> omega

lemma weekDf_exWeek4 : weekDf 1 exWeek4 = some exRows4 := by
  have n1 : natural_wins ⟨1, 1, 100⟩
      [⟨1, 1, 100⟩, ⟨1, 2, 90⟩, ⟨2, 3, 90⟩, ⟨2, 4, 80⟩] = some 1 := by decide
  have n2 : natural_wins ⟨1, 2, 90⟩
      [⟨1, 1, 100⟩, ⟨1, 2, 90⟩, ⟨2, 3, 90⟩, ⟨2, 4, 80⟩] = some 0 := by decide
  have n3 : natural_wins ⟨2, 3, 90⟩
      [⟨1, 1, 100⟩, ⟨1, 2, 90⟩, ⟨2, 3, 90⟩, ⟨2, 4, 80⟩] = some 1 := by decide
  have n4 : natural_wins ⟨2, 4, 80⟩
      [⟨1, 1, 100⟩, ⟨1, 2, 90⟩, ⟨2, 3, 90⟩, ⟨2, 4, 80⟩] = some 0 := by decide
  have e1 : expectedWin [⟨1, 1, 100⟩, ⟨1, 2, 90⟩, ⟨2, 3, 90⟩, ⟨2, 4, 80⟩]
      ⟨1, 1, 100⟩ = 1 := by norm_num [expectedWin, rankMin]
  have e2 : expectedWin [⟨1, 1, 100⟩, ⟨1, 2, 90⟩, ⟨2, 3, 90⟩, ⟨2, 4, 80⟩]
      ⟨1, 2, 90⟩ = 1/3 := by norm_num [expectedWin, rankMin]
  have e3 : expectedWin [⟨1, 1, 100⟩, ⟨1, 2, 90⟩, ⟨2, 3, 90⟩, ⟨2, 4, 80⟩]
      ⟨2, 3, 90⟩ = 1/3 := by norm_num [expectedWin, rankMin]
  have e4 : expectedWin [⟨1, 1, 100⟩, ⟨1, 2, 90⟩, ⟨2, 3, 90⟩, ⟨2, 4, 80⟩]
      ⟨2, 4, 80⟩ = 0 := by norm_num [expectedWin, rankMin]
  unfold weekDf
  rw [if_pos (by decide)]
  simp only [exWeek4, exRows4, List.map_cons, List.map_nil, n1, n2, n3, n4,
    e1, e2, e3, e4, Option.getD_some]
  norm_num

lemma expectedWin_eq (perfs : List Perf) (p : Perf) :
    expectedWin perfs p =
      ((perfs.filter (fun q => q.points < p.points)).length : ℚ) /
        ((perfs.length : ℚ) - 1) := by
  unfold expectedWin rankMin
  congr 1
  push_cast
  ring

lemma countLt_lt {perfs : List Perf} {p : Perf} (hp : p ∈ perfs) :
    (perfs.filter (fun q => q.points < p.points)).length < perfs.length :=
  List.length_filter_lt_length_iff_exists.mpr ⟨p, hp, by simp⟩

/-- C1: every row of a week's frame carries
expected win = (min-rank − 1)/(num_teams − 1) for its performance; the value
lies in [0,1], a unique lowest scorer gets exactly 0 and a unique highest
scorer gets exactly 1. -/
theorem expected_win_rank_bounds (w : Int) (perfs : List Perf) (rows : List Row)
    (hdf : weekDf w perfs = some rows) (hn : 2 ≤ perfs.length) :
    ∀ row ∈ rows, ∃ p, p ∈ perfs ∧ row.roster_id = p.roster_id ∧
      row.points = p.points ∧
      row.expected_win = ((rankMin perfs p : ℚ) - 1) / ((perfs.length : ℚ) - 1) ∧
      0 ≤ row.expected_win ∧ row.expected_win ≤ 1 ∧
      ((∀ q ∈ perfs, p.points ≤ q.points) →
        (perfs.filter (fun q => q.points == p.points)).length = 1 →
        row.expected_win = 0) ∧
      ((∀ q ∈ perfs, q.points ≤ p.points) →
        (perfs.filter (fun q => q.points == p.points)).length = 1 →
        row.expected_win = 1) := by
  have hpos : (0 : ℚ) < (perfs.length : ℚ) - 1 := by
    have : (2 : ℚ) ≤ (perfs.length : ℚ) := by exact_mod_cast hn
    linarith
  unfold weekDf at hdf
  split at hdf
  case isFalse => exact absurd hdf (by simp)
  case isTrue =>
    obtain rfl : rows = _ := (Option.some.inj hdf).symm
    intro row hrow
    obtain ⟨p, hp, rfl⟩ := List.mem_map.mp hrow
    refine ⟨p, hp, rfl, rfl, ?_, ?_, ?_, ?_, ?_⟩
    · rfl
    · show 0 ≤ expectedWin perfs p
      rw [expectedWin_eq]
      exact div_nonneg (by positivity) hpos.le
    · show expectedWin perfs p ≤ 1
      rw [expectedWin_eq, div_le_one hpos]
      have h1 : (perfs.filter (fun q => q.points < p.points)).length + 1 ≤
          perfs.length := countLt_lt hp
      have : ((perfs.filter (fun q => q.points < p.points)).length : ℚ) + 1 ≤
          (perfs.length : ℚ) := by exact_mod_cast h1
      linarith
    · intro hlow _
      show expectedWin perfs p = 0
      rw [expectedWin_eq]
      have hnil : perfs.filter (fun q => q.points < p.points) = [] := by
        rw [List.filter_eq_nil_iff]
        intro q hq
        simp only [decide_eq_true_eq]
        exact not_lt.mpr (hlow q hq)
      rw [hnil]
      simp
    · intro hhigh heq1
      show expectedWin perfs p = 1
      rw [expectedWin_eq]
      have hsplit := length_filter_add perfs (fun q => q.points < p.points)
      have hcongr : perfs.filter (fun q => !(q.points < p.points)) =
          perfs.filter (fun q => q.points == p.points) := by
        apply List.filter_congr
        intro x hx
        rcases eq_or_lt_of_le (hhigh x hx) with h | h
        · simp [h]
        · simp [h, ne_of_lt h]
      rw [hcongr, heq1] at hsplit
      have hlen : (perfs.filter (fun q => q.points < p.points)).length =
          perfs.length - 1 := by omega
      rw [hlen]
      have h1n : 1 ≤ perfs.length := le_trans (by norm_num) hn
      have : ((perfs.length - 1 : ℕ) : ℚ) = (perfs.length : ℚ) - 1 := by
        push_cast [h1n]
        ring
      rw [this]
      exact div_self (ne_of_gt hpos)

/-- Witness for C1: the top row of the concrete four-team week. -/
theorem expected_win_rank_bounds_witness :
    ∃ p, p ∈ exWeek4 ∧ (⟨1, 1, 100, 1, 1, 0⟩ : Row).roster_id = p.roster_id ∧
      (⟨1, 1, 100, 1, 1, 0⟩ : Row).points = p.points ∧
      (⟨1, 1, 100, 1, 1, 0⟩ : Row).expected_win =
        ((rankMin exWeek4 p : ℚ) - 1) / ((exWeek4.length : ℚ) - 1) ∧
      0 ≤ (⟨1, 1, 100, 1, 1, 0⟩ : Row).expected_win ∧
      (⟨1, 1, 100, 1, 1, 0⟩ : Row).expected_win ≤ 1 ∧
      ((∀ q ∈ exWeek4, p.points ≤ q.points) →
        (exWeek4.filter (fun q => q.points == p.points)).length = 1 →
        (⟨1, 1, 100, 1, 1, 0⟩ : Row).expected_win = 0) ∧
      ((∀ q ∈ exWeek4, q.points ≤ p.points) →
        (exWeek4.filter (fun q => q.points == p.points)).length = 1 →
        (⟨1, 1, 100, 1, 1, 0⟩ : Row).expected_win = 1) :=
  expected_win_rank_bounds 1 exWeek4 exRows4 weekDf_exWeek4 (by decide)
    ⟨1, 1, 100, 1, 1, 0⟩ (by decide)

/-- C4: in every row of a week's frame the luck index is exactly the natural
wins minus the expected wins. -/
theorem luck_index_eq (w : Int) (perfs : List Perf) (rows : List Row)
    (hdf : weekDf w perfs = some rows) :
    ∀ row ∈ rows, row.luck_index = row.natural_win - row.expected_win := by
  unfold weekDf at hdf
  split at hdf
  case isFalse => exact absurd hdf (by simp)
  case isTrue =>
    obtain rfl : rows = _ := (Option.some.inj hdf).symm
    intro row hrow
    obtain ⟨p, hp, rfl⟩ := List.mem_map.mp hrow
    rfl

/-- Witness for C4: the top row of the concrete four-team week. -/
theorem luck_index_eq_witness :
    (⟨1, 1, 100, 1, 1, 0⟩ : Row).luck_index =
      (⟨1, 1, 100, 1, 1, 0⟩ : Row).natural_win -
        (⟨1, 1, 100, 1, 1, 0⟩ : Row).expected_win :=
  luck_index_eq 1 exWeek4 exRows4 weekDf_exWeek4 ⟨1, 1, 100, 1, 1, 0⟩ (by decide)

lemma sum_map_filter_add {α : Type} (l : List α) (f : α → ℚ) (P : α → Bool) :
    ((l.filter P).map f).sum + ((l.filter (fun x => !P x)).map f).sum =
      (l.map f).sum := by
  induction l with
  | nil => simp
  | cons a t ih =>
    by_cases h : P a = true
    · simp only [List.filter_cons, h, if_pos, Bool.not_true, Bool.false_eq_true,
        if_false, List.map_cons, List.sum_cons]
      linarith [ih]
    · have h' : P a = false := by
        cases hh : P a
        · rfl
        · exact absurd hh h
      simp only [List.filter_cons, h', Bool.false_eq_true, if_false,
        Bool.not_false, if_pos, List.map_cons, List.sum_cons]
      linarith [ih]

lemma opponent_filter_sub {l : List Perf} {p : Perf} {K : Perf → Bool}
    (hK : ∀ q, (q.matchup_id == p.matchup_id) = true → K q = true) :
    opponent_matchup_data p (l.filter K) = opponent_matchup_data p l := by
  unfold opponent_matchup_data
  rw [List.filter_filter]
  congr 1
  apply List.filter_congr
  intro x _
  cases hmx : (x.matchup_id == p.matchup_id)
  · simp [hmx]
  · simp [hmx, hK x hmx]

lemma natural_wins_filter_sub {l : List Perf} {p : Perf} {K : Perf → Bool}
    (hK : ∀ q, (q.matchup_id == p.matchup_id) = true → K q = true) :
    natural_wins p (l.filter K) = natural_wins p l := by
  unfold natural_wins opponent_points
  rw [opponent_filter_sub hK]

lemma Paired_filter_ne {l : List Perf} {m : Int} (hp : Paired l) :
    Paired (l.filter (fun q => !(q.matchup_id == m))) := by
  intro p hpmem
  obtain ⟨hpl, hKp⟩ := List.mem_filter.mp hpmem
  have hpm : ¬(p.matchup_id = m) := by simpa using hKp
  obtain ⟨h2, h1⟩ := hp p hpl
  have key : ∀ (pred : Perf → Bool),
      (∀ q, pred q = true → (q.matchup_id == p.matchup_id) = true) →
      (l.filter (fun q => !(q.matchup_id == m))).filter pred = l.filter pred := by
    intro pred hpred
    rw [List.filter_filter]
    apply List.filter_congr
    intro x _
    cases hx : pred x
    · simp
    · have hxp : x.matchup_id = p.matchup_id := by simpa using hpred x hx
      have hxm : ¬(x.matchup_id = m) := by rw [hxp]; exact hpm
      simp [hxm]
  constructor
  · rw [key (fun q => q.matchup_id == p.matchup_id) (fun q hq => hq)]
    exact h2
  · rw [key (fun q => q.matchup_id == p.matchup_id && q.roster_id != p.roster_id)
      (fun q hq => ((Bool.and_eq_true _ _).mp hq).1)]
    exact h1

lemma sum_natural_wins_paired :
    ∀ (n : Nat) (l : List Perf), l.length ≤ n → Paired l →
      (l.map (fun p => (natural_wins p l).getD 0)).sum = (l.length : ℚ) / 2 := by
  intro n
  induction n with
  | zero =>
    intro l hl _
    obtain rfl := List.eq_nil_of_length_eq_zero (Nat.le_zero.mp hl)
    simp
  | succ n ih =>
    intro l hl hp
    cases l with
    | nil => simp
    | cons a t =>
      obtain ⟨hg2, ho1⟩ := hp a (List.mem_cons_self a t)
      obtain ⟨b, hb⟩ := List.length_eq_one.mp ho1
      have hbmem : b ∈ (a :: t).filter
          (fun q => q.matchup_id == a.matchup_id && q.roster_id != a.roster_id) := by
        rw [hb]
        exact List.mem_singleton_self b
      have hbl : b ∈ a :: t := (List.mem_filter.mp hbmem).1
      have hbprop := (List.mem_filter.mp hbmem).2
      have hbmid : b.matchup_id = a.matchup_id := by
        simpa using ((Bool.and_eq_true _ _).mp hbprop).1
      have hbrid : b.roster_id ≠ a.roster_id := by
        simpa using ((Bool.and_eq_true _ _).mp hbprop).2
      have hopa : opponent_matchup_data a (a :: t) = some b := by
        unfold opponent_matchup_data
        rw [hb]
        rfl
      have hlenb : ((a :: t).filter
          (fun q => q.matchup_id == b.matchup_id)).length = 2 := by
        rw [List.filter_congr (fun x _ => by rw [hbmid])]
        exact hg2
      have hopb : opponent_matchup_data b (a :: t) = some a :=
        opponent_eq_of_pair hbl (List.mem_cons_self a t) hbmid.symm
          (Ne.symm hbrid) hlenb
      obtain ⟨x, y, hx, hy, hxy⟩ := natural_wins_add_one hopa hopb
      have hsplit := sum_map_filter_add (a :: t)
        (fun p => (natural_wins p (a :: t)).getD 0)
        (fun q => q.matchup_id == a.matchup_id)
      have hab : a ≠ b := fun h => hbrid (congrArg Perf.roster_id h.symm)
      have hgroup : (a :: t).filter (fun q => q.matchup_id == a.matchup_id) = [a, b] ∨
          (a :: t).filter (fun q => q.matchup_id == a.matchup_id) = [b, a] := by
        apply pair_cases hg2
        · exact List.mem_filter.mpr ⟨List.mem_cons_self a t, by simp⟩
        · exact List.mem_filter.mpr ⟨hbl, by simp [hbmid]⟩
        · exact hab
      have hgsum : (((a :: t).filter (fun q => q.matchup_id == a.matchup_id)).map
          (fun p => (natural_wins p (a :: t)).getD 0)).sum = 1 := by
        rcases hgroup with h | h <;> rw [h] <;>
          simp only [List.map_cons, List.map_nil, List.sum_cons, List.sum_nil,
            hx, hy, Option.getD_some, add_zero] <;> linarith [hxy]
      have hKsub : ∀ p' ∈ (a :: t).filter (fun q => !(q.matchup_id == a.matchup_id)),
          natural_wins p' (a :: t) =
            natural_wins p' ((a :: t).filter (fun q => !(q.matchup_id == a.matchup_id))) := by
        intro p' hp'
        have hpm' : ¬(p'.matchup_id = a.matchup_id) := by
          simpa using (List.mem_filter.mp hp').2
        refine (natural_wins_filter_sub ?_).symm
        intro q hq
        have hqp : q.matchup_id = p'.matchup_id := by simpa using hq
        have : ¬(q.matchup_id = a.matchup_id) := by rw [hqp]; exact hpm'
        simpa using this
      have hrsum : (((a :: t).filter (fun q => !(q.matchup_id == a.matchup_id))).map
            (fun p => (natural_wins p (a :: t)).getD 0)).sum =
          (((a :: t).filter (fun q => !(q.matchup_id == a.matchup_id))).map
            (fun p => (natural_wins p
              ((a :: t).filter (fun q => !(q.matchup_id == a.matchup_id)))).getD 0)).sum := by
        rw [List.map_congr_left (fun p' hp' => by rw [hKsub p' hp'])]
      have hpr : Paired ((a :: t).filter (fun q => !(q.matchup_id == a.matchup_id))) :=
        Paired_filter_ne hp
      have hrtail : (a :: t).filter (fun q => !(q.matchup_id == a.matchup_id)) =
          t.filter (fun q => !(q.matchup_id == a.matchup_id)) := by
        simp [List.filter_cons]
      have hrlen : ((a :: t).filter (fun q => !(q.matchup_id == a.matchup_id))).length ≤ n := by
        rw [hrtail]
        exact le_trans (List.length_filter_le _ t)
          (Nat.succ_le_succ_iff.mp (by simpa using hl))
      have ihr := ih _ hrlen hpr
      have hlens := length_filter_add (a :: t) (fun q => q.matchup_id == a.matchup_id)
      rw [hg2] at hlens
      rw [← hsplit, hgsum, hrsum, ihr]
      have hcast : ((a :: t).length : ℚ) =
          2 + (((a :: t).filter (fun q => !(q.matchup_id == a.matchup_id))).length : ℚ) := by
        exact_mod_cast hlens.symm
      rw [hcast]
      ring

/-- C5: when a week's performances are fully paired (each matchup id on
exactly two performances of distinct rosters), the natural-win column of the
week's frame sums to num_teams / 2. -/
theorem natural_win_sum_half (w : Int) (perfs : List Perf) (rows : List Row)
    (hp : Paired perfs) (hdf : weekDf w perfs = some rows) :
    (rows.map Row.natural_win).sum = (perfs.length : ℚ) / 2 := by
  unfold weekDf at hdf
  split at hdf
  case isFalse => exact absurd hdf (by simp)
  case isTrue =>
    obtain rfl : rows = _ := (Option.some.inj hdf).symm
    rw [List.map_map]
    exact sum_natural_wins_paired perfs.length perfs le_rfl hp

/-- Witness for C5 on the concrete four-team week. -/
theorem natural_win_sum_half_witness :
    (exRows4.map Row.natural_win).sum = (exWeek4.length : ℚ) / 2 :=
  natural_win_sum_half 1 exWeek4 exRows4 (by decide) weekDf_exWeek4

lemma natural_wins_isSome (p : Perf) (l : List Perf) :
    (natural_wins p l).isSome = (opponent_matchup_data p l).isSome := by
  unfold natural_wins opponent_points
  cases opponent_matchup_data p l <;> rfl

/-- Counterexample to C6: in a week where matchup 1 carries three
performances, pairing does not fail: the frame is produced and the first
performance's natural win is computed (against the first other performance
sharing its matchup id). -/
theorem overfull_matchup_no_failure :
    weekDf 1 exTriple = some exTripleRows ∧
      natural_wins ⟨1, 1, 10⟩ exTriple = some 1 := by
  constructor
  · have n1 : natural_wins ⟨1, 1, 10⟩ [⟨1, 1, 10⟩, ⟨1, 2, 8⟩, ⟨1, 3, 6⟩] =
        some 1 := by decide
    have n2 : natural_wins ⟨1, 2, 8⟩ [⟨1, 1, 10⟩, ⟨1, 2, 8⟩, ⟨1, 3, 6⟩] =
        some 0 := by decide
    have n3 : natural_wins ⟨1, 3, 6⟩ [⟨1, 1, 10⟩, ⟨1, 2, 8⟩, ⟨1, 3, 6⟩] =
        some 0 := by decide
    have e1 : expectedWin [⟨1, 1, 10⟩, ⟨1, 2, 8⟩, ⟨1, 3, 6⟩] ⟨1, 1, 10⟩ = 1 := by
      norm_num [expectedWin, rankMin]
    have e2 : expectedWin [⟨1, 1, 10⟩, ⟨1, 2, 8⟩, ⟨1, 3, 6⟩] ⟨1, 2, 8⟩ = 1/2 := by
      norm_num [expectedWin, rankMin]
    have e3 : expectedWin [⟨1, 1, 10⟩, ⟨1, 2, 8⟩, ⟨1, 3, 6⟩] ⟨1, 3, 6⟩ = 0 := by
      norm_num [expectedWin, rankMin]
    unfold weekDf
    rw [if_pos (by decide)]
    simp only [exTriple, exTripleRows, List.map_cons, List.map_nil, n1, n2, n3,
      e1, e2, e3, Option.getD_some]
    norm_num
  · decide

/-- C6 as amended: computing a week's frame fails (no natural win, no frame)
exactly when some performance has no opponent — no other performance shares
its matchup id with a different roster id.  In particular a matchup id with
more than two performances causes no failure. -/
theorem weekDf_none_iff_unpaired (w : Int) (perfs : List Perf) :
    weekDf w perfs = none ↔
      ∃ p ∈ perfs, opponent_matchup_data p perfs = none := by
  unfold weekDf
  by_cases h : (perfs.all fun p => (natural_wins p perfs).isSome) = true
  · rw [if_pos h]
    constructor
    · intro hc
      exact absurd hc (by simp)
    · rintro ⟨p, hp, hnone⟩
      have hs := List.all_eq_true.mp h p hp
      rw [natural_wins_isSome, hnone] at hs
      simp at hs
  · rw [if_neg h]
    simp only [List.all_eq_true, not_forall] at h
    constructor
    · intro _
      obtain ⟨p, hp, hns⟩ := h
      refine ⟨p, hp, ?_⟩
      have hfalse : ¬((opponent_matchup_data p perfs).isSome = true) := by
        rw [← natural_wins_isSome]
        exact hns
      exact Option.not_isSome_iff_eq_none.mp hfalse
    · intro _
      rfl

/-- Counterexample to C7: a week with zero performances (size < 2) does not
fail; it yields an empty frame. -/
theorem empty_week_no_failure : weekDf 7 ([] : List Perf) = some [] := rfl

/-- C7 as amended: the code performs no explicit team-count check — an empty
week yields an empty frame; a singleton week fails only because its sole
performance has no opponent; any week whose performances all have opponents
yields a frame with one row per performance. -/
theorem weekDf_size_behavior (w : Int) :
    weekDf w [] = some [] ∧
    (∀ p : Perf, weekDf w [p] = none) ∧
    (∀ perfs : List Perf,
      (∀ p ∈ perfs, (opponent_matchup_data p perfs).isSome = true) →
      ∃ rows, weekDf w perfs = some rows ∧ rows.length = perfs.length) := by
  refine ⟨rfl, ?_, ?_⟩
  · intro p
    unfold weekDf
    rw [if_neg ?_]
    simp only [List.all_cons, List.all_nil, Bool.and_true,
      natural_wins_isSome]
    unfold opponent_matchup_data
    simp [List.filter_cons]
  · intro perfs hops
    unfold weekDf
    rw [if_pos (List.all_eq_true.mpr
      (fun p hp => by rw [natural_wins_isSome]; exact hops p hp))]
    exact ⟨_, rfl, by simp⟩

/-- Witness for the amended C7 on the concrete four-team week. -/
theorem weekDf_size_behavior_witness :
    ∃ rows, weekDf 1 exWeek4 = some rows ∧ rows.length = exWeek4.length :=
  (weekDf_size_behavior 1).2.2 exWeek4 (by decide)

lemma cumSumAux_length (l : List ℚ) : ∀ acc : ℚ, (cumSumAux acc l).length = l.length := by
  induction l with
  | nil => intro acc; rfl
  | cons x xs ih => intro acc; simp [cumSumAux, ih]

lemma cumSumAux_get :
    ∀ (l : List ℚ) (acc : ℚ) (i : Nat) (h : i < (cumSumAux acc l).length),
      (cumSumAux acc l).get ⟨i, h⟩ = acc + (l.take (i + 1)).sum := by
  intro l
  induction l with
  | nil =>
    intro acc i h
    simp [cumSumAux] at h
  | cons x xs ih =>
    intro acc i h
    cases i with
    | zero => simp [cumSumAux]
    | succ j =>
      have h' : j < (cumSumAux (acc + x) xs).length := by
        simpa [cumSumAux] using h
      have hstep : (cumSumAux acc (x :: xs)).get ⟨j + 1, h⟩ =
          (cumSumAux (acc + x) xs).get ⟨j, h'⟩ := rfl
      rw [hstep, ih (acc + x) j h', List.take_succ_cons, List.sum_cons]
      ring

lemma cumSumAux_getLast :
    ∀ (l : List ℚ) (acc : ℚ), l ≠ [] →
      (cumSumAux acc l).getLast? = some (acc + l.sum) := by
  intro l
  induction l with
  | nil => intro acc h; exact absurd rfl h
  | cons x xs ih =>
    intro acc _
    cases hxs : xs with
    | nil => simp [cumSumAux]
    | cons y ys =>
      subst hxs
      have hstep : (cumSumAux acc (x :: y :: ys)).getLast? =
          (cumSumAux (acc + x) (y :: ys)).getLast? := by
        rw [show cumSumAux acc (x :: y :: ys) =
            (acc + x) :: (acc + x + y) :: cumSumAux (acc + x + y) ys from rfl,
          List.getLast?_cons_cons,
          show (acc + x + y) :: cumSumAux (acc + x + y) ys =
            cumSumAux (acc + x) (y :: ys) from rfl]
      rw [hstep, ih (acc + x) (by simp)]
      congr 1
      simp only [List.sum_cons]
      ring

lemma pairwise_week_le_hist (weekly : List (List Row))
    (hw : List.Pairwise (fun b1 b2 => ∀ r1 ∈ b1, ∀ r2 ∈ b2, r1.week < r2.week) weekly)
    (hsame : ∀ b ∈ weekly, ∀ r1 ∈ b, ∀ r2 ∈ b, r1.week = r2.week) :
    List.Pairwise (fun r1 r2 => r1.week ≤ r2.week) (historicalResults weekly) := by
  unfold historicalResults
  rw [List.pairwise_flatten]
  constructor
  · intro b hb
    exact List.pairwise_of_forall_mem_list
      (fun r1 h1 r2 h2 => le_of_eq (hsame b hb r1 h1 r2 h2))
  · exact hw.imp (fun h r1 h1 r2 h2 => (h r1 h1 r2 h2).le)

/-- C8: for any roster, the season aggregate over weekly frames in ascending
week order has luckstat equal to the sum of the roster's luck indices, the
roster's rows appear in (weakly) ascending week order, cumulative luck is
the running total of those luck indices, and its last entry equals
luckstat. -/
theorem season_luck_aggregation (weekly : List (List Row)) (rid : Int)
    (hw : List.Pairwise (fun b1 b2 => ∀ r1 ∈ b1, ∀ r2 ∈ b2, r1.week < r2.week) weekly)
    (hsame : ∀ b ∈ weekly, ∀ r1 ∈ b, ∀ r2 ∈ b, r1.week = r2.week) :
    (aggRow rid (historicalResults weekly)).luckstat =
      ((rosterRows rid (historicalResults weekly)).map Row.luck_index).sum ∧
    List.Pairwise (fun r1 r2 => r1.week ≤ r2.week)
      (rosterRows rid (historicalResults weekly)) ∧
    (∀ i (h : i < (aggRow rid (historicalResults weekly)).cumulative_luck.length),
      (aggRow rid (historicalResults weekly)).cumulative_luck.get ⟨i, h⟩ =
        (((rosterRows rid (historicalResults weekly)).map Row.luck_index).take
          (i + 1)).sum) ∧
    (rosterRows rid (historicalResults weekly) ≠ [] →
      (aggRow rid (historicalResults weekly)).cumulative_luck.getLast? =
        some (aggRow rid (historicalResults weekly)).luckstat) := by
  refine ⟨rfl, ?_, ?_, ?_⟩
  · exact (pairwise_week_le_hist weekly hw hsame).sublist
      (List.filter_sublist _)
  · intro i h
    simp only [aggRow, cumSum] at h ⊢
    rw [cumSumAux_get _ 0 i h]
    ring
  · intro hne
    simp only [aggRow, cumSum]
    rw [cumSumAux_getLast _ 0 (by simpa using hne)]
    congr 1
    ring

/-- Witness for C8 on the concrete two-week history. -/
theorem season_luck_aggregation_witness :
    (aggRow 1 (historicalResults exWeekly)).luckstat =
      ((rosterRows 1 (historicalResults exWeekly)).map Row.luck_index).sum ∧
    (aggRow 1 (historicalResults exWeekly)).cumulative_luck.getLast? =
      some (aggRow 1 (historicalResults exWeekly)).luckstat :=
  ⟨(season_luck_aggregation exWeekly 1 (by decide) (by decide)).1,
   (season_luck_aggregation exWeekly 1 (by decide) (by decide)).2.2.2 (by decide)⟩

/-- C9: the power-ranking table consists exactly of the inner-join matches
of the season aggregate with the roster metadata on roster id (non-matching
rows of either side are silently excluded), projected without roster id,
and it is sorted by expected wins in descending order. -/
theorem power_rankings_sorted_join (agg : List AggRow) (meta : List MetaRow) :
    List.Pairwise (fun x y => y.expected_wins ≤ x.expected_wins)
      (powerRankings agg meta) ∧
    ∀ x, x ∈ powerRankings agg meta ↔
      ∃ a ∈ agg, ∃ m ∈ meta, a.roster_id = m.roster_id ∧ x = combineRows a m := by
  constructor
  · have htrans : ∀ (a b c : RankRow), expDescLe a b = true → expDescLe b c = true →
        expDescLe a c = true := by
      intro a b c hab hbc
      exact decide_eq_true (le_trans (of_decide_eq_true hbc) (of_decide_eq_true hab))
    have htotal : ∀ (a b : RankRow), (expDescLe a b || expDescLe b a) = true := by
      intro a b
      rcases le_total b.expected_wins a.expected_wins with h | h
      · simp [expDescLe, h]
      · simp [expDescLe, h]
    have hs := List.sorted_mergeSort htrans htotal (innerJoin agg meta)
    exact hs.imp (fun h => of_decide_eq_true h)
  · intro x
    unfold powerRankings
    rw [List.Perm.mem_iff (List.mergeSort_perm _ _)]
    unfold innerJoin
    simp only [List.mem_flatMap, List.mem_map, List.mem_filter]
    constructor
    · rintro ⟨a, ha, m, ⟨hm, hmid⟩, rfl⟩
      exact ⟨a, ha, m, hm, (by simpa using hmid : m.roster_id = a.roster_id).symm, rfl⟩
    · rintro ⟨a, ha, m, hm, hmid, rfl⟩
      exact ⟨a, ha, m, ⟨hm, by simp [hmid]⟩, rfl⟩

end Sleeper
